import Mathlib

/-!
Verification of the recipes authorization policy store and its in-memory
policy evaluation engine, as a shallow embedding of the Go sources.

Go slices can be nil; where nil-ness is observable (the `shared.Filter`
result, the `groups` argument of `Permission.Evaluate`, the collections of a
`PolicyEvaluationResult`) a slice is embedded as `Option (List _)`, with
`none` standing for the nil slice.  Go multi-value returns `(T, error)` are
embedded as `T × Option String` with `none` standing for the nil error.
-/

namespace shared

/-- Embeds `shared.Filter` (internal/shared/filter.go).  The Go function
declares the named result slice `result` (initially the nil slice) and appends
the selected value for every input element satisfying the predicate; the
result is the nil slice exactly when no element satisfied the predicate. -/
def Filter {T R : Type} (input : List T) (predicate : T → Bool) (selector : T → R) :
    Option (List R) :=
  input.foldl
    (fun result value =>
      if predicate value then some (result.getD [] ++ [selector value]) else result)
    none

end shared

namespace auth

/-- Embeds `auth.Group` (unnamed auth group file). -/
structure Group where
  Name : String
  Users : List String
deriving DecidableEq, Repr

/-- Embeds `auth.Group.Evaluate`: empty user fails, otherwise a
`slices.Contains` membership test. -/
def Group.Evaluate (group : Group) (user : String) : Bool × Option String :=
  if user = "" then (false, some "group name is empty")
  else (group.Users.contains user, none)

/-- Embeds `auth.Permission` (unnamed auth permission file). -/
structure Permission where
  Name : String
  Groups : List String
deriving DecidableEq, Repr

/-- Embeds `auth.Permission.Evaluate`: nil groups fail, an empty slice returns
false with no error, otherwise the input is tested against a lookup map built
from `permission.Groups` (a key is in that map exactly when it is an element
of the list). -/
def Permission.Evaluate (permission : Permission) (groups : Option (List String)) :
    Bool × Option String :=
  match groups with
  | none => (false, some "groups is nil")
  | some gs =>
    if gs.length = 0 then (false, none)
    else (gs.any (fun g => permission.Groups.contains g), none)

/-- Embeds `auth.PolicyEvaluationResult`; both fields are Go slices that can
be nil. -/
structure PolicyEvaluationResult where
  Groups : Option (List String)
  Permissions : Option (List String)
deriving DecidableEq, Repr

/-- Embeds `auth.Policy`. -/
structure Policy where
  Permissions : List Permission
  Groups : List Group
deriving DecidableEq, Repr

/-- Embeds `auth.Policy.Evaluate` (the policy file of package auth).  Note the
two filter predicates exactly as written in the source: each one returns the
boolean `result` of the inner Evaluate call only when the accompanying error
is non-nil, and returns false when the error is nil. -/
def Policy.Evaluate (policy : Policy) (user : String) :
    Option PolicyEvaluationResult × Option String :=
  if user = "" then (none, some "user is empty")
  else
    let groups := shared.Filter policy.Groups
      (fun group =>
        let r := Group.Evaluate group user
        if r.2.isSome then r.1 else false)
      (fun group => group.Name)
    let permissions := shared.Filter policy.Permissions
      (fun permission =>
        let r := Permission.Evaluate permission groups
        if r.2.isSome then r.1 else false)
      (fun permission => permission.Name)
    (some ⟨groups, permissions⟩, none)

end auth

namespace authz

/-- Embeds `authz.Group` (internal/authz/group.go). -/
structure Group where
  Name : String
  Users : List String
deriving DecidableEq, Repr

/-- Embeds `authz.Group.Evaluate` (internal/authz/group.go lines 41-47). -/
def Group.Evaluate (group : Group) (user : String) : Bool × Option String :=
  if user = "" then (false, some "user is empty")
  else (group.Users.contains user, none)

/-- Modelled from the spec: `authz.Permission` is not under src/ (only its
uses in the postgres store are); per section 3 of the spec a permission has a
unique `Name` and the set `Groups` of group names granted it. -/
structure Permission where
  Name : String
  Groups : List String
deriving DecidableEq, Repr

/-- Modelled from the spec: `authz.Policy` is not under src/ (only its uses
are); per section 3 of the spec a policy snapshot is
`{Permissions: []Permission, Groups: []Group}`. -/
structure Policy where
  Permissions : List Permission
  Groups : List Group
deriving DecidableEq, Repr

/-- Modelled from the spec: `authz.NewPolicy`, the constructor applied by
`PostgresPolicyManager.ReadPolicy` to its two accumulated collections. -/
def NewPolicy (permissions : List Permission) (groups : List Group) : Policy :=
  ⟨permissions, groups⟩

end authz

namespace store

/-- Embeds `store.ErrorCode` (policy store error file). -/
inductive ErrorCode
| DefaultError
| Concurrency
| GroupNotFound
| NameAlreadyExist
| NoUserRecordsDeleted
| DatabaseError
deriving DecidableEq, Repr

/-- Embeds `store.PolicyStoreError`. -/
structure PolicyStoreError where
  Code : ErrorCode
  Description : String
deriving DecidableEq, Repr

/-- Embeds `store.NewDefaultError`. -/
def NewDefaultError : PolicyStoreError :=
  ⟨.DefaultError, "An unknown failure has occurred"⟩

/-- Embeds `store.NewConcurrencyError`. -/
def NewConcurrencyError : PolicyStoreError :=
  ⟨.Concurrency, "The operation failed due to a concurrency issue"⟩

/-- Embeds `store.NewGroupNotFoundError`. -/
def NewGroupNotFoundError : PolicyStoreError :=
  ⟨.GroupNotFound, "The group was not found"⟩

/-- Embeds `store.NewNameExistsError`. -/
def NewNameExistsError : PolicyStoreError :=
  ⟨.NameAlreadyExist, "The name already exists"⟩

/-- Embeds `store.NewNoUserRecordsDeletedError`. -/
def NewNoUserRecordsDeletedError : PolicyStoreError :=
  ⟨.NoUserRecordsDeleted, "No user records were deleted"⟩

/-- Embeds `store.NewDataBaseError`. -/
def NewDataBaseError : PolicyStoreError :=
  ⟨.DatabaseError, "An error occurred while interacting with the database"⟩

end store

namespace postgres

/-- The pgx driver errors the manager distinguishes: `pgx.ErrNoRows`, a
unique-constraint violation, and any other driver failure. -/
inductive PgError
| noRows
| uniqueViolation
| otherFailure
deriving DecidableEq, Repr

/-- Embeds the `versionError` helper (postgres manager, part_007 lines
372-379): `pgx.ErrNoRows` becomes GroupNotFound, anything else DatabaseError. -/
def versionError (err : PgError) : store.PolicyStoreError :=
  if err = PgError.noRows then store.NewGroupNotFoundError else store.NewDataBaseError

/-- A row of the `groups` table: `id`, `name`, `version`. -/
structure GroupRow where
  id : Nat
  name : String
  version : Nat
deriving DecidableEq, Repr

/-- A row of the `permissions` table: `id`, `name`, `version`. -/
structure PermissionRow where
  id : Nat
  name : String
  version : Nat
deriving DecidableEq, Repr

/-- The relational state the manager operates on: the `groups`,
`permissions`, `subjects` (user id, group id) and `group_permissions`
(group id, permission id) tables, plus the identity counters generating the
primary keys. -/
structure DbState where
  groups : List GroupRow
  permissions : List PermissionRow
  subjects : List (String × Nat)
  groupPermissions : List (Nat × Nat)
  nextGroupId : Nat
  nextPermissionId : Nat
deriving DecidableEq, Repr

/-- The freshly migrated database: empty tables, identities starting at 1. -/
def emptyDb : DbState := ⟨[], [], [], [], 1, 1⟩

/-- The result of `SELECT version FROM groups WHERE id = $1`: the version of
the first row with the given id, none when no row exists (`pgx.ErrNoRows`). -/
def groupVersion (s : DbState) (gid : Nat) : Option Nat :=
  (s.groups.find? (fun g => g.id == gid)).map (fun g => g.version)

/-- The version-increment statement shared by the two merge operations:
`UPDATE groups SET version = version + 1 WHERE id = $1 AND version = $2`.
Returns the updated state when at least one row matched, none when zero rows
were affected. -/
def bumpVersion (s : DbState) (gid v : Nat) : Option DbState :=
  if s.groups.any (fun g => g.id == gid && g.version == v) then
    some { s with groups := s.groups.map (fun g =>
      if g.id == gid && g.version == v then { g with version := g.version + 1 } else g) }
  else none

/-- The MERGE of `subjects` rows for group `gid` against the desired user
set (UpdateGroupUsers): insert a `(user, gid)` row for every listed user not
already present, delete every `gid` row whose user is not listed, keep the
rest. -/
def mergeSubjects (subs : List (String × Nat)) (gid : Nat) (users : List String) :
    List (String × Nat) :=
  subs.filter (fun r => !(r.2 == gid) || users.contains r.1)
    ++ (users.filter (fun u => !(subs.any (fun r => r.1 == u && r.2 == gid)))).map
        (fun u => (u, gid))

/-- The MERGE of `group_permissions` rows for group `gid` against the desired
permission set (UpdateGroupPermissions). -/
def mergeGroupPermissions (gps : List (Nat × Nat)) (gid : Nat) (pids : List Nat) :
    List (Nat × Nat) :=
  gps.filter (fun r => !(r.1 == gid) || pids.contains r.2)
    ++ (pids.filter (fun p => !(gps.any (fun r => r.1 == gid && r.2 == p)))).map
        (fun p => (gid, p))

/-- The MERGE of `subjects` rows for user `uid` against the desired group set
(UpdateUserGroups). -/
def mergeUserGroups (subs : List (String × Nat)) (uid : String) (gids : List Nat) :
    List (String × Nat) :=
  subs.filter (fun r => !(r.1 == uid) || gids.contains r.2)
    ++ (gids.filter (fun g => !(subs.any (fun r => r.1 == uid && r.2 == g)))).map
        (fun g => (uid, g))

/-- The transaction body of `UpdateGroupUsers` run with the version `v`
obtained by the initial read (possibly stale by the time the transaction
runs): merge the membership edges, then the version-conditioned increment;
zero affected rows aborts with ConcurrencyError and the rollback restores the
original state. -/
def applyGroupUsersMerge (s : DbState) (gid v : Nat) (users : List String) :
    DbState × Option store.PolicyStoreError :=
  let merged : DbState := { s with subjects := mergeSubjects s.subjects gid users }
  match bumpVersion merged gid v with
  | some s' => (s', none)
  | none => (s, some store.NewConcurrencyError)

/-- The transaction body of `UpdateGroupPermissions` run with the version `v`
obtained by the initial read. -/
def applyGroupPermissionsMerge (s : DbState) (gid v : Nat) (pids : List Nat) :
    DbState × Option store.PolicyStoreError :=
  let merged : DbState := { s with groupPermissions := mergeGroupPermissions s.groupPermissions gid pids }
  match bumpVersion merged gid v with
  | some s' => (s', none)
  | none => (s, some store.NewConcurrencyError)

/-- The conditional statement of `ChangeGroupName`: `UPDATE groups SET
name = $1, version = version + 1 WHERE id = $2 AND version = $3`; zero
affected rows is a ConcurrencyError. -/
def applyChangeGroupName (s : DbState) (gid v : Nat) (newName : String) :
    DbState × Option store.PolicyStoreError :=
  if s.groups.any (fun g => g.id == gid && g.version == v) then
    ({ s with groups := s.groups.map (fun g =>
        if g.id == gid && g.version == v then { g with name := newName, version := g.version + 1 } else g) },
      none)
  else (s, some store.NewConcurrencyError)

/-- The conditional statement of `DeleteGroup`: `DELETE FROM groups WHERE
id = $1 AND version = $2`, with the schema's ON DELETE CASCADE removing the
membership and grant edges of the deleted row; zero affected rows is a
ConcurrencyError. -/
def applyDeleteGroup (s : DbState) (gid v : Nat) :
    DbState × Option store.PolicyStoreError :=
  if s.groups.any (fun g => g.id == gid && g.version == v) then
    ({ s with
        groups := s.groups.filter (fun g => !(g.id == gid && g.version == v)),
        subjects := s.subjects.filter (fun r => !(r.2 == gid)),
        groupPermissions := s.groupPermissions.filter (fun r => !(r.1 == gid)) },
      none)
  else (s, some store.NewConcurrencyError)

/-- Embeds `CreateGroup` on the database state: `INSERT INTO groups (name,
version) VALUES ($1, 1) RETURNING id`; a duplicate name raises the unique
violation mapped to NewNameExistsError. -/
def CreateGroupState (s : DbState) (name : String) :
    DbState × Except store.PolicyStoreError Nat :=
  if s.groups.any (fun g => g.name == name) then (s, .error store.NewNameExistsError)
  else
    let id := s.nextGroupId
    ({ s with groups := s.groups ++ [⟨id, name, 1⟩], nextGroupId := id + 1 }, .ok id)

/-- Embeds `CreatePermission` on the database state. -/
def CreatePermissionState (s : DbState) (name : String) :
    DbState × Except store.PolicyStoreError Nat :=
  if s.permissions.any (fun p => p.name == name) then (s, .error store.NewNameExistsError)
  else
    let id := s.nextPermissionId
    ({ s with permissions := s.permissions ++ [⟨id, name, 1⟩], nextPermissionId := id + 1 }, .ok id)

/-- Embeds `UpdateGroupUsers` on the database state, with no interference
between the version read and the transaction: the initial read finding no row
fails with GroupNotFound, otherwise the transaction body runs with the read
version. -/
def UpdateGroupUsersState (s : DbState) (gid : Nat) (users : List String) :
    DbState × Option store.PolicyStoreError :=
  match groupVersion s gid with
  | none => (s, some store.NewGroupNotFoundError)
  | some v => applyGroupUsersMerge s gid v users

/-- Embeds `UpdateGroupPermissions` on the database state, with no
interference between the version read and the transaction. -/
def UpdateGroupPermissionsState (s : DbState) (gid : Nat) (pids : List Nat) :
    DbState × Option store.PolicyStoreError :=
  match groupVersion s gid with
  | none => (s, some store.NewGroupNotFoundError)
  | some v => applyGroupPermissionsMerge s gid v pids

/-- Embeds `ChangeGroupName` on the database state, with no interference. -/
def ChangeGroupNameState (s : DbState) (gid : Nat) (newName : String) :
    DbState × Option store.PolicyStoreError :=
  match groupVersion s gid with
  | none => (s, some store.NewGroupNotFoundError)
  | some v => applyChangeGroupName s gid v newName

/-- Embeds `DeleteGroup` on the database state, with no interference. -/
def DeleteGroupState (s : DbState) (gid : Nat) :
    DbState × Option store.PolicyStoreError :=
  match groupVersion s gid with
  | none => (s, some store.NewGroupNotFoundError)
  | some v => applyDeleteGroup s gid v

/-- Embeds `UpdateUserGroups` on the database state: an unconditional merge
of the membership edges of one user, with no version check. -/
def UpdateUserGroupsState (s : DbState) (uid : String) (gids : List Nat) :
    DbState × Option store.PolicyStoreError :=
  ({ s with subjects := mergeUserGroups s.subjects uid gids }, none)

/-- Embeds `DeleteUser` on the database state: `DELETE FROM subjects WHERE
id = $1`; zero affected rows fails with NewNoUserRecordsDeletedError. -/
def DeleteUserState (s : DbState) (uid : String) :
    DbState × Option store.PolicyStoreError :=
  if s.subjects.countP (fun r => r.1 == uid) == 0 then
    (s, some store.NewNoUserRecordsDeletedError)
  else
    ({ s with subjects := s.subjects.filter (fun r => !(r.1 == uid)) }, none)

/-- The rows of the first batched query, `SELECT g.name, s.id FROM groups g
LEFT JOIN subjects s ON g.id = s.group_id`: for every group one row per
member, or a single row with a null user when the group has no members. -/
def groupUserRows (s : DbState) : List (String × Option String) :=
  (s.groups.map (fun g =>
    let us := (s.subjects.filter (fun r => r.2 == g.id)).map (fun r => r.1)
    if us.isEmpty then [(g.name, none)] else us.map (fun u => (g.name, some u)))).flatten

/-- The rows of the second batched query, `SELECT p.name, g.name FROM
permissions p LEFT JOIN group_permissions gp ON p.id = gp.permission_id LEFT
JOIN groups g ON g.id = gp.group_id`. -/
def permissionGroupRows (s : DbState) : List (String × Option String) :=
  (s.permissions.map (fun p =>
    let gs := (s.groupPermissions.filter (fun r => r.2 == p.id)).map (fun r =>
      (s.groups.find? (fun g => g.id == r.1)).map (fun g => g.name))
    if gs.isEmpty then [(p.name, none)] else gs.map (fun og => (p.name, og)))).flatten

/-- One iteration of the group-accumulation loop of `ReadPolicy` (part_007
lines 300-318) on the map keyed by group name.  When the key is already
present the Go code appends the user to `group.Users` where `group` is a
struct COPY of the map value and never stores it back into the map, so the
map is left unchanged; only the else branch, creating the entry from the
first row of a name, ever writes to the map. -/
def scanGroupStep (acc : List authz.Group) (row : String × Option String) :
    List authz.Group :=
  if acc.any (fun g => g.Name == row.1) then acc
  else acc ++ [⟨row.1, match row.2 with | some u => [u] | none => []⟩]

/-- The group-accumulation loop of `ReadPolicy`, the map in insertion order. -/
def scanGroupRows (rows : List (String × Option String)) : List authz.Group :=
  rows.foldl scanGroupStep []

/-- One iteration of the permission-accumulation loop of `ReadPolicy`
(part_007 lines 335-353), with the identical copy-without-writeback shape. -/
def scanPermissionStep (acc : List authz.Permission) (row : String × Option String) :
    List authz.Permission :=
  if acc.any (fun p => p.Name == row.1) then acc
  else acc ++ [⟨row.1, match row.2 with | some g => [g] | none => []⟩]

/-- The permission-accumulation loop of `ReadPolicy`. -/
def scanPermissionRows (rows : List (String × Option String)) : List authz.Permission :=
  rows.foldl scanPermissionStep []

/-- Embeds the success path of `ReadPolicy` on the database state: both
queries answered from the current state, no driver failures. -/
def ReadPolicyState (s : DbState) : authz.Policy :=
  authz.NewPolicy (scanPermissionRows (permissionGroupRows s)) (scanGroupRows (groupUserRows s))

/-- One pgx result set as the manager consumes it: each call of `rows.Next`
either yields a row whose `rows.Scan` succeeds (`Except.ok`) or one whose
scan fails (`Except.error`), and after the loop `rows.Err` is non-nil exactly
when `finalErr` is true. -/
structure PgRows where
  rows : List (Except Unit (String × Option String))
  finalErr : Bool
deriving Repr

/-- The scan loop over one result set: the first row whose scan fails aborts
with `store.NewDefaultError`, otherwise all rows are collected. -/
def scanAll : List (Except Unit (String × Option String)) →
    Except store.PolicyStoreError (List (String × Option String))
  | [] => .ok []
  | .error _ :: _ => .error store.NewDefaultError
  | .ok row :: rest => (scanAll rest).map (fun rs => row :: rs)

/-- Draining one result set: the scan loop, then the `rows.Err` check, which
also fails with `store.NewDefaultError`. -/
def drainRows (r : PgRows) : Except store.PolicyStoreError (List (String × Option String)) :=
  match scanAll r.rows with
  | .error e => .error e
  | .ok rows => if r.finalErr then .error store.NewDefaultError else .ok rows

/-- The two results the batch handle hands back: each `br.Query` call either
fails (DatabaseError path) or yields a result set. -/
structure BatchResults where
  q1 : Except PgError PgRows
  q2 : Except PgError PgRows
deriving Repr

/-- The observable outcome of `ReadPolicy`: the returned policy pointer, the
returned error, and whether the deferred `br.Close` ran. -/
structure ReadPolicyOutcome where
  policy : Option authz.Policy
  err : Option store.PolicyStoreError
  closed : Bool
deriving Repr

/-- Embeds the control flow of `ReadPolicy` (part_007 lines 270-363) over the
batch results: a failed `br.Query` yields DatabaseError, a failed drain
yields the drain's error, success folds both row lists and builds the policy;
the deferred `br.Close` runs on every path. -/
def ReadPolicyFlow (br : BatchResults) : ReadPolicyOutcome :=
  match br.q1 with
  | .error _ => ⟨none, some store.NewDataBaseError, true⟩
  | .ok r1 =>
    match drainRows r1 with
    | .error e => ⟨none, some e, true⟩
    | .ok rows1 =>
      match br.q2 with
      | .error _ => ⟨none, some store.NewDataBaseError, true⟩
      | .ok r2 =>
        match drainRows r2 with
        | .error e => ⟨none, some e, true⟩
        | .ok rows2 =>
          ⟨some (authz.NewPolicy (scanPermissionRows rows2) (scanGroupRows rows1)), none, true⟩

/-- The driver outcomes one run of a transactional group mutation
(UpdateGroupPermissions, UpdateGroupUsers) can observe: the initial version
read, `Begin`, the MERGE `Exec`, the version-increment `Exec` (affected row
count), and `Commit`. -/
structure TxOutcomes where
  versionRead : Except PgError Nat
  beginTx : Except PgError Unit
  mergeExec : Except PgError Nat
  versionExec : Except PgError Nat
  commitTx : Except PgError Unit
deriving Repr

/-- What a flow run reports: the returned error and whether the transaction
committed. -/
structure FlowResult where
  err : Option store.PolicyStoreError
  committed : Bool
deriving DecidableEq, Repr

/-- The shared control flow of `UpdateGroupPermissions` (part_007 lines
38-89) and `UpdateGroupUsers` (lines 130-181) over the driver outcomes: a
version-read failure goes through `versionError`; Begin, Exec and Commit
failures are DatabaseError; a version-increment affecting zero rows aborts
with ConcurrencyError before Commit. -/
def txMutationFlow (o : TxOutcomes) : FlowResult :=
  match o.versionRead with
  | .error e => ⟨some (versionError e), false⟩
  | .ok _ =>
    match o.beginTx with
    | .error _ => ⟨some store.NewDataBaseError, false⟩
    | .ok _ =>
      match o.mergeExec with
      | .error _ => ⟨some store.NewDataBaseError, false⟩
      | .ok _ =>
        match o.versionExec with
        | .error _ => ⟨some store.NewDataBaseError, false⟩
        | .ok 0 => ⟨some store.NewConcurrencyError, false⟩
        | .ok (_ + 1) =>
          match o.commitTx with
          | .error _ => ⟨some store.NewDataBaseError, false⟩
          | .ok _ => ⟨none, true⟩

/-- The driver outcomes of a non-transactional conditioned mutation
(ChangeGroupName, DeleteGroup): the version read and the conditioned
Exec. -/
structure ExecOutcomes where
  versionRead : Except PgError Nat
  exec : Except PgError Nat
deriving Repr

/-- The shared control flow of `ChangeGroupName` (part_007 lines 230-250) and
`DeleteGroup` (lines 207-227): a version-read failure goes through
`versionError`, an Exec failure is DatabaseError, zero affected rows is
ConcurrencyError. -/
def condExecFlow (o : ExecOutcomes) : Option store.PolicyStoreError :=
  match o.versionRead with
  | .error e => some (versionError e)
  | .ok _ =>
    match o.exec with
    | .error _ => some store.NewDataBaseError
    | .ok 0 => some store.NewConcurrencyError
    | .ok (_ + 1) => none

/-- The control flow of `DeleteUser` (part_007 lines 253-268) over the
outcome of its single Exec. -/
def deleteUserFlow (execResult : Except PgError Nat) : Option store.PolicyStoreError :=
  match execResult with
  | .error _ => some store.NewDataBaseError
  | .ok 0 => some store.NewNoUserRecordsDeletedError
  | .ok (_ + 1) => none

end postgres

namespace postgres

/-- The groups table has at most one row per primary key. -/
def WFGroupIds (s : DbState) : Prop := (s.groups.map (fun g => g.id)).Nodup

/-- Invariant of the groups table maintained by the schema: primary keys are
unique and every key was generated by the identity counter. -/
def WFDb (s : DbState) : Prop :=
  WFGroupIds s ∧ ∀ g ∈ s.groups, g.id < s.nextGroupId

/-- One store operation as observed on the database state.  A group mutation
runs its version-conditioned statement with the version `v` its initial read
returned, which a concurrent writer may have made stale, so `v` is free. -/
inductive StoreStep : DbState → DbState → Prop
| createGroup (s : DbState) (name : String) :
    StoreStep s (CreateGroupState s name).1
| createPermission (s : DbState) (name : String) :
    StoreStep s (CreatePermissionState s name).1
| groupUsersMerge (s : DbState) (gid v : Nat) (users : List String) :
    StoreStep s (applyGroupUsersMerge s gid v users).1
| groupPermissionsMerge (s : DbState) (gid v : Nat) (pids : List Nat) :
    StoreStep s (applyGroupPermissionsMerge s gid v pids).1
| changeGroupName (s : DbState) (gid v : Nat) (nm : String) :
    StoreStep s (applyChangeGroupName s gid v nm).1
| deleteGroup (s : DbState) (gid v : Nat) :
    StoreStep s (applyDeleteGroup s gid v).1
| userGroupsMerge (s : DbState) (uid : String) (gids : List Nat) :
    StoreStep s (UpdateUserGroupsState s uid gids).1
| deleteUser (s : DbState) (uid : String) :
    StoreStep s (DeleteUserState s uid).1

end postgres

section EngineLemmas

/-- A filter whose predicate rejects every input element returns the nil
slice. -/
lemma Filter_eq_none {T R : Type} (input : List T) (p : T → Bool) (s : T → R)
    (h : ∀ x ∈ input, p x = false) : shared.Filter input p s = none := by
  induction input with
  | nil => rfl
  | cons a l ih =>
    unfold shared.Filter at ih ⊢
    rw [List.foldl_cons]
    have ha : p a = false := h a (List.mem_cons_self a l)
    simp only [ha, Bool.false_eq_true, if_false]
    exact ih (fun x hx => h x (List.mem_cons_of_mem a hx))

/-- Because both filter predicates of `Policy.Evaluate` return the inner
boolean only when the inner error is non-nil (and the boolean accompanying a
non-nil error is always false), every element is rejected: for any non-empty
user the result of `Policy.Evaluate` has nil Groups and nil Permissions. -/
lemma Policy_Evaluate_nonempty_user (policy : auth.Policy) (user : String)
    (h : user ≠ "") :
    auth.Policy.Evaluate policy user = (some ⟨none, none⟩, none) := by
  unfold auth.Policy.Evaluate
  rw [if_neg h]
  have hgroups : shared.Filter policy.Groups
      (fun group =>
        let r := auth.Group.Evaluate group user
        if r.2.isSome then r.1 else false)
      (fun group => group.Name) = none := by
    apply Filter_eq_none
    intro g _
    simp [auth.Group.Evaluate, h]
  simp only [hgroups]
  have hperms : shared.Filter policy.Permissions
      (fun permission =>
        let r := auth.Permission.Evaluate permission none
        if r.2.isSome then r.1 else false)
      (fun permission => permission.Name) = none := by
    apply Filter_eq_none
    intro p _
    simp [auth.Permission.Evaluate]
  simp only [hperms]

end EngineLemmas

/-- Claim C1: the spec and the package tests state that `Policy.Evaluate`
filters the policy groups by membership and the permissions by the resulting
groups, so that the policy with groups admin:[adminuser] and permissions
write:[admin] evaluated at adminuser yields Groups=[admin] and
Permissions=[write].  The code does not: both filter predicates invert the
error test (`if error != nil { return result }; return false`), so every
element is rejected and the evaluation of adminuser returns a result with nil
Groups and nil Permissions, contradicting the repository test
TestEvaluate_UserWithGroupsAndPermissions. -/
theorem C1_policy_evaluate_returns_empty_on_admin_example :
    auth.Policy.Evaluate ⟨[⟨"write", ["admin"]⟩], [⟨"admin", ["adminuser"]⟩]⟩ "adminuser"
      = (some ⟨none, none⟩, none) := by rfl

/-- Claim C3, counterexample: the claim says the collections of the result
are empty but NOT nil; on the empty policy and user unknown the code succeeds
and returns the result whose Groups and Permissions are the nil slice
(`none`), not a non-nil empty slice (`some []`). -/
theorem C3_counterexample_collections_are_nil :
    auth.Policy.Evaluate ⟨[], []⟩ "unknown" = (some ⟨none, none⟩, none) := by rfl

/-- Claim C3, amended: for every non-empty user, if the policy is empty or
the user is a member of no group, `Policy.Evaluate` succeeds (nil error) and
returns a non-nil result whose Groups and Permissions are both empty; they
are the nil slice, not a non-nil empty slice. -/
theorem C3_empty_result_on_no_membership (policy : auth.Policy) (user : String)
    (huser : user ≠ "")
    (_hnomember : policy.Groups = [] ∨ ∀ g ∈ policy.Groups, user ∉ g.Users) :
    auth.Policy.Evaluate policy user = (some ⟨none, none⟩, none) :=
  Policy_Evaluate_nonempty_user policy user huser

/-- Claim C3, witness: the amended theorem applied to the empty policy and
the user unknown. -/
theorem C3_empty_result_witness :
    auth.Policy.Evaluate ⟨[], []⟩ "unknownuser" = (some ⟨none, none⟩, none) :=
  C3_empty_result_on_no_membership ⟨[], []⟩ "unknownuser" (by decide) (Or.inl rfl)

/-- Claim C4: evaluating the empty user fails with the invalid-input error
and never returns true: `authz.Group.Evaluate` and `auth.Group.Evaluate`
return false together with a non-nil error, and `auth.Policy.Evaluate`
returns no result together with a non-nil error. -/
theorem C4_empty_user_always_fails :
    (∀ g : authz.Group, authz.Group.Evaluate g "" = (false, some "user is empty")) ∧
    (∀ g : auth.Group, auth.Group.Evaluate g "" = (false, some "group name is empty")) ∧
    (∀ p : auth.Policy, auth.Policy.Evaluate p "" = (none, some "user is empty")) :=
  ⟨fun _ => rfl, fun _ => rfl, fun _ => rfl⟩

/-- Claim C5: `Permission.Evaluate` fails on the nil slice with false, returns
(false, nil error) on the empty non-nil slice, returns true on a non-nil
slice exactly when the slice intersects the permission groups, and its answer
is the same for any two inputs with the same elements (order-independent and
duplicate-tolerant). -/
theorem C5_permission_evaluate_spec (p : auth.Permission) :
    auth.Permission.Evaluate p none = (false, some "groups is nil") ∧
    auth.Permission.Evaluate p (some []) = (false, none) ∧
    (∀ gs : List String,
      ((auth.Permission.Evaluate p (some gs)).1 = true ↔ ∃ g, g ∈ gs ∧ g ∈ p.Groups)) ∧
    (∀ gs₁ gs₂ : List String, (∀ g, g ∈ gs₁ ↔ g ∈ gs₂) →
      auth.Permission.Evaluate p (some gs₁) = auth.Permission.Evaluate p (some gs₂)) := by
  have heval : ∀ gs : List String,
      auth.Permission.Evaluate p (some gs)
        = (gs.any (fun g => p.Groups.contains g), none) := by
    intro gs
    cases gs with
    | nil => rfl
    | cons a l => rfl
  refine ⟨rfl, rfl, ?_, ?_⟩
  · intro gs
    rw [heval]
    simp [List.any_eq_true]
  · intro gs₁ gs₂ h
    rw [heval, heval]
    have : gs₁.any (fun g => p.Groups.contains g)
        = gs₂.any (fun g => p.Groups.contains g) := by
      cases h₁ : gs₁.any (fun g => p.Groups.contains g) with
      | true =>
        rw [List.any_eq_true] at h₁
        obtain ⟨g, hg, hgp⟩ := h₁
        exact (List.any_eq_true.mpr ⟨g, (h g).mp hg, hgp⟩).symm
      | false =>
        rw [List.any_eq_false] at h₁
        symm
        rw [List.any_eq_false]
        intro g hg
        exact h₁ g ((h g).mpr hg)
    rw [this]

/-- Claim C5, witness: the order-independence part applied to the write
permission at two reorderings of the same group set, together with the
intersection test at a concrete input. -/
theorem C5_permission_evaluate_witness :
    auth.Permission.Evaluate ⟨"write", ["admin"]⟩ (some ["x", "admin"])
      = auth.Permission.Evaluate ⟨"write", ["admin"]⟩ (some ["admin", "x", "x"]) :=
  (C5_permission_evaluate_spec ⟨"write", ["admin"]⟩).2.2.2 ["x", "admin"] ["admin", "x", "x"]
    (by intro g; constructor <;> (intro hg; simp at hg ⊢; tauto))

/-- Claim C2: the spec's round trip CreateGroup g, UpdateGroupUsers(id,
[u1, u2]), ReadPolicy must show group g with Users exactly the set {u1, u2}.
The code does not: the accumulation loop of ReadPolicy appends further
membership rows to a struct copy of the map entry without storing the copy
back, so only the user of the first row of each group survives; the round
trip yields Users = [u1]. -/
theorem C2_round_trip_loses_second_user :
    (postgres.CreateGroupState postgres.emptyDb "g").2 = Except.ok 1 ∧
    (postgres.UpdateGroupUsersState (postgres.CreateGroupState postgres.emptyDb "g").1
        1 ["u1", "u2"]).2 = none ∧
    (postgres.UpdateGroupUsersState (postgres.CreateGroupState postgres.emptyDb "g").1
        1 ["u1", "u2"]).1.subjects = [("u1", 1), ("u2", 1)] ∧
    (postgres.ReadPolicyState
        (postgres.UpdateGroupUsersState (postgres.CreateGroupState postgres.emptyDb "g").1
          1 ["u1", "u2"]).1).Groups
      = [⟨"g", ["u1"]⟩] :=
  ⟨rfl, rfl, rfl, rfl⟩

/-- Claim C8: DeleteUser fails with NewNoUserRecordsDeletedError exactly when
zero membership rows match the user (state unchanged), fails with
DatabaseError on a driver failure of its Exec, and otherwise succeeds,
removing every membership row of that user and no other row, leaving the
group rows unchanged. -/
theorem C8_delete_user (s : postgres.DbState) (uid : String) :
    (s.subjects.countP (fun r => r.1 == uid) = 0 →
      postgres.DeleteUserState s uid = (s, some store.NewNoUserRecordsDeletedError)) ∧
    (∀ e : postgres.PgError,
      postgres.deleteUserFlow (.error e) = some store.NewDataBaseError) ∧
    (s.subjects.countP (fun r => r.1 == uid) ≠ 0 →
      (postgres.DeleteUserState s uid).2 = none ∧
      (postgres.DeleteUserState s uid).1.subjects
        = s.subjects.filter (fun r => !(r.1 == uid)) ∧
      (postgres.DeleteUserState s uid).1.groups = s.groups) := by
  refine ⟨?_, fun e => rfl, ?_⟩
  · intro h
    unfold postgres.DeleteUserState
    rw [if_pos (by simpa using h)]
  · intro h
    unfold postgres.DeleteUserState
    rw [if_neg (by simpa using h)]
    exact ⟨rfl, rfl, rfl⟩

/-- Claim C8, witness: deleting a user with membership rows in two groups
removes both rows, keeps the membership row of the other user and leaves both
group rows intact. -/
theorem C8_delete_user_witness :
    (postgres.DeleteUserState
        ⟨[⟨1, "g1", 1⟩, ⟨2, "g2", 1⟩], [], [("u", 1), ("u", 2), ("w", 1)], [], 3, 1⟩
        "u").2 = none ∧
    (postgres.DeleteUserState
        ⟨[⟨1, "g1", 1⟩, ⟨2, "g2", 1⟩], [], [("u", 1), ("u", 2), ("w", 1)], [], 3, 1⟩
        "u").1.subjects
      = List.filter (fun r => !(r.1 == "u")) [("u", 1), ("u", 2), ("w", 1)] ∧
    (postgres.DeleteUserState
        ⟨[⟨1, "g1", 1⟩, ⟨2, "g2", 1⟩], [], [("u", 1), ("u", 2), ("w", 1)], [], 3, 1⟩
        "u").1.groups = [⟨1, "g1", 1⟩, ⟨2, "g2", 1⟩] :=
  (C8_delete_user
    ⟨[⟨1, "g1", 1⟩, ⟨2, "g2", 1⟩], [], [("u", 1), ("u", 2), ("w", 1)], [], 3, 1⟩
    "u").2.2 (by decide)

section ReadPolicyLemmas

/-- The scan loop only ever fails with the default error kind. -/
lemma scanAll_error_eq_default (rows : List (Except Unit (String × Option String)))
    (e : store.PolicyStoreError) (h : postgres.scanAll rows = .error e) :
    e = store.NewDefaultError := by
  induction rows with
  | nil => simp [postgres.scanAll] at h
  | cons r rest ih =>
    cases r with
    | error u =>
      simp [postgres.scanAll] at h
      exact h.symm
    | ok row =>
      rw [postgres.scanAll] at h
      cases hs : postgres.scanAll rest with
      | error e' =>
        rw [hs] at h
        simp [Except.map] at h
        rw [h] at hs
        exact ih hs
      | ok l =>
        rw [hs] at h
        simp [Except.map] at h

/-- Draining a result set only ever fails with the default error kind: both
the scan failure and the end-of-rows failure are classified as
`store.NewDefaultError`. -/
lemma drainRows_error_eq_default (r : postgres.PgRows) (e : store.PolicyStoreError)
    (h : postgres.drainRows r = .error e) : e = store.NewDefaultError := by
  unfold postgres.drainRows at h
  split at h
  · rename_i e' hs
    injection h with h
    exact h ▸ scanAll_error_eq_default r.rows e' hs
  · rename_i rows hs
    split at h
    · injection h with h
      exact h.symm
    · cases h

/-- One accumulation iteration keeps the group names free of duplicates. -/
lemma scanGroupStep_names_nodup (acc : List authz.Group) (row : String × Option String)
    (h : (acc.map (fun g => g.Name)).Nodup) :
    ((postgres.scanGroupStep acc row).map (fun g => g.Name)).Nodup := by
  unfold postgres.scanGroupStep
  split
  · exact h
  · rename_i hany
    rw [List.map_append]
    refine List.Nodup.append h (by simp) ?_
    intro a ha hb
    simp only [List.map_cons, List.map_nil, List.mem_singleton] at hb
    subst hb
    rw [List.mem_map] at ha
    obtain ⟨g, hg, hname⟩ := ha
    exact hany (List.any_eq_true.mpr ⟨g, hg, by simp [hname]⟩)

/-- The group accumulation of ReadPolicy never produces two entries with the
same name. -/
lemma scanGroupRows_foldl_nodup (rows : List (String × Option String)) :
    ∀ acc, (acc.map (fun g => g.Name)).Nodup →
      ((rows.foldl postgres.scanGroupStep acc).map (fun g => g.Name)).Nodup := by
  induction rows with
  | nil => intro acc h; simpa using h
  | cons r rest ih =>
    intro acc h
    rw [List.foldl_cons]
    exact ih _ (scanGroupStep_names_nodup acc r h)

/-- One accumulation iteration keeps the permission names free of
duplicates. -/
lemma scanPermissionStep_names_nodup (acc : List authz.Permission)
    (row : String × Option String) (h : (acc.map (fun p => p.Name)).Nodup) :
    ((postgres.scanPermissionStep acc row).map (fun p => p.Name)).Nodup := by
  unfold postgres.scanPermissionStep
  split
  · exact h
  · rename_i hany
    rw [List.map_append]
    refine List.Nodup.append h (by simp) ?_
    intro a ha hb
    simp only [List.map_cons, List.map_nil, List.mem_singleton] at hb
    subst hb
    rw [List.mem_map] at ha
    obtain ⟨p, hp, hname⟩ := ha
    exact hany (List.any_eq_true.mpr ⟨p, hp, by simp [hname]⟩)

/-- The permission accumulation of ReadPolicy never produces two entries with
the same name. -/
lemma scanPermissionRows_foldl_nodup (rows : List (String × Option String)) :
    ∀ acc, (acc.map (fun p => p.Name)).Nodup →
      ((rows.foldl postgres.scanPermissionStep acc).map (fun p => p.Name)).Nodup := by
  induction rows with
  | nil => intro acc h; simpa using h
  | cons r rest ih =>
    intro acc h
    rw [List.foldl_cons]
    exact ih _ (scanPermissionStep_names_nodup acc r h)

end ReadPolicyLemmas

/-- Claim C9: ReadPolicy classifies its failures by origin: a failed Query on
either batch result yields DatabaseError; a failed drain (row-scan error or
end-of-rows error) on either result set yields the default error kind, whose
code differs from DatabaseError; every failure returns no policy; and the
deferred Close of the batch handle runs on every exit path. -/
theorem C9_readpolicy_error_classification (br : postgres.BatchResults) :
    (∀ e, br.q1 = .error e →
      postgres.ReadPolicyFlow br = ⟨none, some store.NewDataBaseError, true⟩) ∧
    (∀ r1 e, br.q1 = .ok r1 → postgres.drainRows r1 = .error e →
      postgres.ReadPolicyFlow br = ⟨none, some store.NewDefaultError, true⟩) ∧
    (∀ r1 rows1 e, br.q1 = .ok r1 → postgres.drainRows r1 = .ok rows1 →
      br.q2 = .error e →
      postgres.ReadPolicyFlow br = ⟨none, some store.NewDataBaseError, true⟩) ∧
    (∀ r1 rows1 r2 e, br.q1 = .ok r1 → postgres.drainRows r1 = .ok rows1 →
      br.q2 = .ok r2 → postgres.drainRows r2 = .error e →
      postgres.ReadPolicyFlow br = ⟨none, some store.NewDefaultError, true⟩) ∧
    store.NewDefaultError.Code ≠ store.NewDataBaseError.Code ∧
    (postgres.ReadPolicyFlow br).closed = true := by
  refine ⟨?_, ?_, ?_, ?_, by simp [store.NewDefaultError, store.NewDataBaseError], ?_⟩
  · intro e he
    simp [postgres.ReadPolicyFlow, he]
  · intro r1 e h1 hd
    have he := drainRows_error_eq_default r1 e hd
    subst he
    simp [postgres.ReadPolicyFlow, h1, hd]
  · intro r1 rows1 e h1 hd h2
    simp [postgres.ReadPolicyFlow, h1, hd, h2]
  · intro r1 rows1 r2 e h1 hd1 h2 hd2
    have he := drainRows_error_eq_default r2 e hd2
    subst he
    simp [postgres.ReadPolicyFlow, h1, hd1, h2, hd2]
  · unfold postgres.ReadPolicyFlow
    repeat' split
    all_goals rfl

/-- Claim C9, witness: a result set whose first row fails to scan makes
ReadPolicy fail with the default error kind, return no policy, and still
close the batch handle. -/
theorem C9_readpolicy_error_witness :
    postgres.ReadPolicyFlow ⟨.ok ⟨[.error ()], false⟩, .ok ⟨[], false⟩⟩
      = ⟨none, some store.NewDefaultError, true⟩ :=
  (C9_readpolicy_error_classification ⟨.ok ⟨[.error ()], false⟩, .ok ⟨[], false⟩⟩).2.1
    ⟨[.error ()], false⟩ store.NewDefaultError rfl rfl

/-- Claim C10: a successful ReadPolicy returns a policy (the pointer is
non-nil), and any returned policy lists each group name at most once and each
permission name at most once, the accumulation being keyed by name whatever
rows the two joins produce. -/
theorem C10_readpolicy_names_unique (br : postgres.BatchResults) :
    ((postgres.ReadPolicyFlow br).err = none →
      ∃ p, (postgres.ReadPolicyFlow br).policy = some p) ∧
    (∀ p, (postgres.ReadPolicyFlow br).policy = some p →
      (p.Groups.map (fun g => g.Name)).Nodup ∧
      (p.Permissions.map (fun q => q.Name)).Nodup) := by
  unfold postgres.ReadPolicyFlow
  repeat' split
  all_goals simp
  constructor
  · exact scanGroupRows_foldl_nodup _ [] (by simp)
  · exact scanPermissionRows_foldl_nodup _ [] (by simp)

/-- Claim C10, witness: the theorem applied to a concrete batch whose first
query repeats the group name over two rows: the returned policy still lists
the name once. -/
theorem C10_readpolicy_names_unique_witness :
    ((authz.NewPolicy [] [⟨"g", ["u1"]⟩]).Groups.map (fun g => g.Name)).Nodup ∧
    ((authz.NewPolicy [] [⟨"g", ["u1"]⟩]).Permissions.map (fun q => q.Name)).Nodup :=
  (C10_readpolicy_names_unique
      ⟨.ok ⟨[.ok ("g", some "u1"), .ok ("g", some "u2")], false⟩, .ok ⟨[], false⟩⟩).2
    (authz.NewPolicy [] [⟨"g", ["u1"]⟩]) rfl

section VersionLemmas

/-- Under unique group ids, if the version read for `gid` did not return `v`
(no row, or a different current version), then no row matches the
version-conditioned WHERE clause `id = gid AND version = v`. -/
lemma groups_any_version_eq_false (s : postgres.DbState) (gid v : Nat)
    (hwf : postgres.WFGroupIds s) (h : postgres.groupVersion s gid ≠ some v) :
    s.groups.any (fun g => g.id == gid && g.version == v) = false := by
  rw [List.any_eq_false]
  intro g hg
  by_contra hc
  rw [Bool.and_eq_true, beq_iff_eq, beq_iff_eq] at hc
  apply h
  unfold postgres.groupVersion
  cases hf : s.groups.find? (fun x => x.id == gid) with
  | none =>
    exfalso
    have hnone := List.find?_eq_none.mp hf g hg
    simp [hc.1] at hnone
  | some g' =>
    have hmem' := List.mem_of_find?_eq_some hf
    have hpred := List.find?_some hf
    rw [beq_iff_eq] at hpred
    have hgg : g = g' :=
      List.inj_on_of_nodup_map hwf hg hmem' (by rw [hc.1, hpred])
    rw [← hgg]
    simp [hc.2]

end VersionLemmas

/-- Claim C6: for every group-centric mutation (UpdateGroupPermissions,
UpdateGroupUsers via the transactional flow; ChangeGroupName, DeleteGroup via
the conditional-statement flow): a version read hitting no row fails with
GroupNotFound; any other read failure fails with DatabaseError; a
version-conditioned update or delete affecting zero rows aborts with
ConcurrencyError and commits nothing; and semantically, running the
conditioned statement with a version that is not the current one leaves the
state unchanged and returns ConcurrencyError. -/
theorem C6_version_protocol :
    (∀ o : postgres.TxOutcomes, o.versionRead = .error .noRows →
      postgres.txMutationFlow o = ⟨some store.NewGroupNotFoundError, false⟩) ∧
    (∀ (o : postgres.TxOutcomes) (e : postgres.PgError), e ≠ .noRows →
      o.versionRead = .error e →
      postgres.txMutationFlow o = ⟨some store.NewDataBaseError, false⟩) ∧
    (∀ (o : postgres.TxOutcomes) (v m : Nat), o.versionRead = .ok v →
      o.beginTx = .ok () → o.mergeExec = .ok m → o.versionExec = .ok 0 →
      postgres.txMutationFlow o = ⟨some store.NewConcurrencyError, false⟩) ∧
    (∀ o : postgres.ExecOutcomes, o.versionRead = .error .noRows →
      postgres.condExecFlow o = some store.NewGroupNotFoundError) ∧
    (∀ (o : postgres.ExecOutcomes) (e : postgres.PgError), e ≠ .noRows →
      o.versionRead = .error e →
      postgres.condExecFlow o = some store.NewDataBaseError) ∧
    (∀ (o : postgres.ExecOutcomes) (v : Nat), o.versionRead = .ok v → o.exec = .ok 0 →
      postgres.condExecFlow o = some store.NewConcurrencyError) ∧
    (∀ (s : postgres.DbState) (gid v : Nat), postgres.WFGroupIds s →
      postgres.groupVersion s gid ≠ some v →
      (∀ users, postgres.applyGroupUsersMerge s gid v users
        = (s, some store.NewConcurrencyError)) ∧
      (∀ pids, postgres.applyGroupPermissionsMerge s gid v pids
        = (s, some store.NewConcurrencyError)) ∧
      (∀ nm, postgres.applyChangeGroupName s gid v nm
        = (s, some store.NewConcurrencyError)) ∧
      postgres.applyDeleteGroup s gid v = (s, some store.NewConcurrencyError)) := by
  refine ⟨?_, ?_, ?_, ?_, ?_, ?_, ?_⟩
  · intro o h
    simp [postgres.txMutationFlow, h, postgres.versionError]
  · intro o e he h
    simp [postgres.txMutationFlow, h, postgres.versionError, he]
  · intro o v m h1 h2 h3 h4
    simp [postgres.txMutationFlow, h1, h2, h3, h4]
  · intro o h
    simp [postgres.condExecFlow, h, postgres.versionError]
  · intro o e he h
    simp [postgres.condExecFlow, h, postgres.versionError, he]
  · intro o v h1 h2
    simp [postgres.condExecFlow, h1, h2]
  · intro s gid v hwf hne
    have hany := groups_any_version_eq_false s gid v hwf hne
    refine ⟨?_, ?_, ?_, ?_⟩
    · intro users
      unfold postgres.applyGroupUsersMerge postgres.bumpVersion
      simp [hany]
    · intro pids
      unfold postgres.applyGroupPermissionsMerge postgres.bumpVersion
      simp [hany]
    · intro nm
      unfold postgres.applyChangeGroupName
      simp [hany]
    · unfold postgres.applyDeleteGroup
      simp [hany]

/-- Claim C6, witness: a transactional mutation whose version increment
affects zero rows returns ConcurrencyError uncommitted, and deleting group 1
with the stale version 1 while the stored version is 2 leaves the state
unchanged. -/
theorem C6_version_protocol_witness :
    postgres.txMutationFlow ⟨.ok 1, .ok (), .ok 0, .ok 0, .ok ()⟩
      = ⟨some store.NewConcurrencyError, false⟩ ∧
    postgres.applyDeleteGroup ⟨[⟨1, "g", 2⟩], [], [], [], 2, 1⟩ 1 1
      = (⟨[⟨1, "g", 2⟩], [], [], [], 2, 1⟩, some store.NewConcurrencyError) :=
  ⟨C6_version_protocol.2.2.1 ⟨.ok 1, .ok (), .ok 0, .ok 0, .ok ()⟩ 1 0 rfl rfl rfl rfl,
    (C6_version_protocol.2.2.2.2.2.2 ⟨[⟨1, "g", 2⟩], [], [], [], 2, 1⟩ 1 1
      (by simp [postgres.WFGroupIds]) (by decide)).2.2.2⟩

section LifecycleLemmas

/-- After the version-conditioned row update (any update function `upd` that
preserves the id and adds one to the version, covering both the plain
version increment and the rename), the version visible through the
primary-key lookup is bumped exactly when the lookup previously returned `v`
and the target id matches, and unchanged otherwise. -/
lemma findVersion_map_cond (gid v gid' : Nat)
    (upd : postgres.GroupRow → postgres.GroupRow)
    (hid : ∀ g, (upd g).id = g.id)
    (hver : ∀ g, (upd g).version = g.version + 1) :
    ∀ gs : List postgres.GroupRow,
    ((gs.map (fun g => if g.id == gid && g.version == v then upd g else g)).find?
        (fun g => g.id == gid')).map (fun g => g.version)
      = match (gs.find? (fun g => g.id == gid')).map (fun g => g.version) with
        | none => none
        | some w => if gid' = gid ∧ w = v then some (v + 1) else some w := by
  intro gs
  induction gs with
  | nil => rfl
  | cons g rest ih =>
    by_cases hpg : g.id = gid'
    · by_cases hc : g.id = gid ∧ g.version = v
      · have hgg : gid' = gid := hpg ▸ hc.1
        simp [List.find?_cons, hc.1, hc.2, hgg, hid, hver]
      · have hcb : (g.id == gid && g.version == v) = false := by
          rw [Bool.eq_false_iff]
          intro hx
          rw [Bool.and_eq_true, beq_iff_eq, beq_iff_eq] at hx
          exact hc hx
        have hno : ¬(gid' = gid ∧ g.version = v) := by
          rintro ⟨h1, h2⟩
          exact hc ⟨hpg.trans h1, h2⟩
        simp [List.find?_cons, hcb, hpg, hno]
    · have hpgb : (g.id == gid') = false := by simp [hpg]
      have hfid : ((if (g.id == gid && g.version == v) = true then upd g else g).id == gid')
          = false := by
        split
        · rw [hid]
          exact hpgb
        · exact hpgb
      simp only [List.map_cons, List.find?_cons, hfid, hpgb]
      exact ih

/-- Appending a freshly created row changes the primary-key lookup only for
an id with no earlier row. -/
lemma findVersion_append (row : postgres.GroupRow) (gid : Nat) :
    ∀ gs : List postgres.GroupRow,
    ((gs ++ [row]).find? (fun g => g.id == gid)).map (fun g => g.version)
      = match (gs.find? (fun g => g.id == gid)).map (fun g => g.version) with
        | some w => some w
        | none => if row.id = gid then some row.version else none := by
  intro gs
  induction gs with
  | nil =>
    by_cases h : row.id = gid
    · simp [List.find?_cons, h]
    · simp [List.find?_cons, h]
  | cons g rest ih =>
    by_cases hpg : g.id = gid
    · simp [List.find?_cons, hpg]
    · simp only [List.cons_append, List.find?_cons]
      have hpgb : (g.id == gid) = false := by simp [hpg]
      simp only [hpgb]
      exact ih

/-- Filtering away only rows of other ids leaves the primary-key lookup
unchanged. -/
lemma find_filter_keep (p : postgres.GroupRow → Bool) (gid : Nat) :
    ∀ gs : List postgres.GroupRow,
    (∀ g ∈ gs, g.id = gid → p g = true) →
    (gs.filter p).find? (fun g => g.id == gid) = gs.find? (fun g => g.id == gid) := by
  intro gs
  induction gs with
  | nil => intro _; rfl
  | cons g rest ih =>
    intro h
    have hrest := fun x hx => h x (List.mem_cons_of_mem g hx)
    by_cases hp : p g = true
    · rw [List.filter_cons_of_pos hp]
      by_cases hpg : g.id = gid
      · simp [List.find?_cons, hpg]
      · have hpgb : (g.id == gid) = false := by simp [hpg]
        simp only [List.find?_cons, hpgb]
        exact ih hrest
    · have hpg : g.id ≠ gid := fun hx => hp (h g (List.mem_cons_self g rest) hx)
      have hpgb : (g.id == gid) = false := by simp [hpg]
      rw [List.filter_cons_of_neg (by simp [hp])]
      rw [ih hrest]
      simp only [List.find?_cons, hpgb]

/-- Filtering away every row of an id empties the primary-key lookup for that
id. -/
lemma find_filter_none (p : postgres.GroupRow → Bool) (gid : Nat) :
    ∀ gs : List postgres.GroupRow,
    (∀ g ∈ gs, g.id = gid → p g = false) →
    (gs.filter p).find? (fun g => g.id == gid) = none := by
  intro gs
  induction gs with
  | nil => intro _; rfl
  | cons g rest ih =>
    intro h
    have hrest := fun x hx => h x (List.mem_cons_of_mem g hx)
    by_cases hp : p g = true
    · have hpg : g.id ≠ gid := by
        intro hx
        rw [h g (List.mem_cons_self g rest) hx] at hp
        cases hp
      have hpgb : (g.id == gid) = false := by simp [hpg]
      rw [List.filter_cons_of_pos hp]
      simp only [List.find?_cons, hpgb]
      exact ih hrest
    · rw [List.filter_cons_of_neg (by simp [hp])]
      exact ih hrest

/-- The version-conditioned row update preserves the list of primary keys. -/
lemma map_id_map_cond (gid v : Nat) (upd : postgres.GroupRow → postgres.GroupRow)
    (hid : ∀ g, (upd g).id = g.id) :
    ∀ gs : List postgres.GroupRow,
    (gs.map (fun g => if g.id == gid && g.version == v then upd g else g)).map
        (fun g => g.id)
      = gs.map (fun g => g.id) := by
  intro gs
  induction gs with
  | nil => rfl
  | cons g rest ih =>
    simp only [List.map_cons, ih]
    congr 1
    split
    · exact hid g
    · rfl

/-- Under unique ids, a row matching the conditioned WHERE clause means the
primary-key lookup returns exactly `v`. -/
lemma groupVersion_eq_of_any (s : postgres.DbState) (gid v : Nat)
    (hwf : postgres.WFGroupIds s)
    (h : s.groups.any (fun g => g.id == gid && g.version == v) = true) :
    postgres.groupVersion s gid = some v := by
  by_contra hne
  rw [groups_any_version_eq_false s gid v hwf hne] at h
  cases h

end LifecycleLemmas

section WFLemmas

/-- A state sharing the groups table and the identity counter of a
well-formed state is well formed. -/
lemma WFDb_of_parts_eq (s s' : postgres.DbState) (hg : s'.groups = s.groups)
    (hn : s'.nextGroupId = s.nextGroupId) (h : postgres.WFDb s) : postgres.WFDb s' := by
  obtain ⟨h1, h2⟩ := h
  constructor
  · unfold postgres.WFGroupIds at h1 ⊢
    rw [hg]
    exact h1
  · intro g hgmem
    rw [hn]
    rw [hg] at hgmem
    exact h2 g hgmem

/-- The version-conditioned row update keeps the state well formed. -/
lemma WFDb_map_cond (s s' : postgres.DbState) (gid v : Nat)
    (upd : postgres.GroupRow → postgres.GroupRow) (hid : ∀ g, (upd g).id = g.id)
    (hg : s'.groups
      = s.groups.map (fun g => if g.id == gid && g.version == v then upd g else g))
    (hn : s'.nextGroupId = s.nextGroupId) (h : postgres.WFDb s) : postgres.WFDb s' := by
  obtain ⟨h1, h2⟩ := h
  constructor
  · unfold postgres.WFGroupIds at h1 ⊢
    rw [hg, map_id_map_cond gid v upd hid s.groups]
    exact h1
  · intro g hgmem
    rw [hn]
    rw [hg, List.mem_map] at hgmem
    obtain ⟨g0, hg0, heq⟩ := hgmem
    have hsame : g.id = g0.id := by
      rw [← heq]
      split
      · exact hid g0
      · rfl
    rw [hsame]
    exact h2 g0 hg0

/-- Deleting rows keeps the state well formed. -/
lemma WFDb_filter (s s' : postgres.DbState) (p : postgres.GroupRow → Bool)
    (hg : s'.groups = s.groups.filter p) (hn : s'.nextGroupId = s.nextGroupId)
    (h : postgres.WFDb s) : postgres.WFDb s' := by
  obtain ⟨h1, h2⟩ := h
  constructor
  · unfold postgres.WFGroupIds at h1 ⊢
    rw [hg]
    exact List.Nodup.sublist
      (List.Sublist.map (fun g => g.id) (List.filter_sublist s.groups)) h1
  · intro g hgmem
    rw [hn]
    rw [hg] at hgmem
    exact h2 g (List.mem_of_mem_filter hgmem)

/-- Creating a group with the next identity keeps the state well formed. -/
lemma WFDb_append_fresh (s : postgres.DbState) (name : String) (h : postgres.WFDb s) :
    postgres.WFDb { s with groups := s.groups ++ [⟨s.nextGroupId, name, 1⟩], nextGroupId := s.nextGroupId + 1 } := by
  obtain ⟨h1, h2⟩ := h
  constructor
  · unfold postgres.WFGroupIds at h1 ⊢
    simp only [List.map_append, List.map_cons, List.map_nil]
    refine List.Nodup.append h1 (by simp) ?_
    intro a ha hb
    simp only [List.mem_singleton] at hb
    rw [List.mem_map] at ha
    obtain ⟨g0, hg0, rfl⟩ := ha
    exact absurd hb (Nat.ne_of_lt (h2 g0 hg0))
  · intro g hgmem
    simp only [List.mem_append, List.mem_singleton] at hgmem
    cases hgmem with
    | inl hgl => exact Nat.lt_succ_of_lt (h2 g hgl)
    | inr hgr =>
      subst hgr
      exact Nat.lt_succ_self _

/-- A successful version-conditioned update: the version read was the current
one and the surviving row carries exactly one more. -/
lemma merge_success_version (s s' : postgres.DbState) (gid v : Nat)
    (upd : postgres.GroupRow → postgres.GroupRow) (hid : ∀ g, (upd g).id = g.id)
    (hver : ∀ g, (upd g).version = g.version + 1)
    (hwf : postgres.WFGroupIds s)
    (hany : s.groups.any (fun g => g.id == gid && g.version == v) = true)
    (hg : s'.groups
      = s.groups.map (fun g => if g.id == gid && g.version == v then upd g else g)) :
    postgres.groupVersion s gid = some v ∧ postgres.groupVersion s' gid = some (v + 1) := by
  have h1 := groupVersion_eq_of_any s gid v hwf hany
  refine ⟨h1, ?_⟩
  unfold postgres.groupVersion at h1 ⊢
  rw [hg, findVersion_map_cond gid v gid upd hid hver s.groups, h1]
  simp

end WFLemmas

section StepLemmas

/-- What a successful version increment tells: a row matched the WHERE clause
and the groups table is the conditioned map. -/
lemma bumpVersion_eq_some (s s' : postgres.DbState) (gid v : Nat)
    (h : postgres.bumpVersion s gid v = some s') :
    s.groups.any (fun g => g.id == gid && g.version == v) = true ∧
    s'.groups = s.groups.map (fun g =>
      if g.id == gid && g.version == v then { g with version := g.version + 1 } else g) ∧
    s'.nextGroupId = s.nextGroupId := by
  unfold postgres.bumpVersion at h
  split at h
  · rename_i hcond
    injection h with h
    subst h
    exact ⟨hcond, rfl, rfl⟩
  · cases h

/-- The two ways the conditioned row update can move the version visible at
one primary key: untouched, or from w to w + 1. -/
lemma groupVersion_map_cond_cases (s s' : postgres.DbState) (gid0 v gid : Nat)
    (upd : postgres.GroupRow → postgres.GroupRow) (hid : ∀ g, (upd g).id = g.id)
    (hver : ∀ g, (upd g).version = g.version + 1)
    (hg : s'.groups
      = s.groups.map (fun g => if g.id == gid0 && g.version == v then upd g else g)) :
    postgres.groupVersion s' gid = postgres.groupVersion s gid ∨
    (∃ w, postgres.groupVersion s gid = some w ∧
      postgres.groupVersion s' gid = some (w + 1)) := by
  unfold postgres.groupVersion
  rw [hg, findVersion_map_cond gid0 v gid upd hid hver s.groups]
  cases hfv : (s.groups.find? (fun g => g.id == gid)).map (fun g => g.version) with
  | none => left; rfl
  | some w =>
    by_cases hcond : gid = gid0 ∧ w = v
    · right
      refine ⟨w, rfl, ?_⟩
      have : (if gid = gid0 ∧ w = v then some (v + 1) else some w) = some (v + 1) :=
        if_pos hcond
      rw [show (match some w with
          | none => none
          | some w => if gid = gid0 ∧ w = v then some (v + 1) else some w)
          = if gid = gid0 ∧ w = v then some (v + 1) else some w from rfl, this, hcond.2]
    · left
      rw [show (match some w with
          | none => none
          | some w => if gid = gid0 ∧ w = v then some (v + 1) else some w)
          = if gid = gid0 ∧ w = v then some (v + 1) else some w from rfl, if_neg hcond]

end StepLemmas

/-- Claim C7: every group row is created with version exactly 1; a successful
version-conditioned mutation of a group row (user merge, permission merge,
rename) found the read version current and raises the version by exactly 1; a
mutation presenting a stale version is rejected with the state unchanged
rather than merged; well-formedness (unique, identity-generated keys) is
preserved by every store step; and along any step from a well-formed state
the version of a group either stays, moves from v to exactly v + 1, starts at
1 on creation, or the group is gone — a surviving group never skips or
repeats a version number. -/
theorem C7_version_lifecycle :
    (∀ (s : postgres.DbState) (name : String) (s' : postgres.DbState) (id : Nat),
      postgres.WFDb s → postgres.CreateGroupState s name = (s', .ok id) →
      postgres.groupVersion s' id = some 1) ∧
    (∀ (s : postgres.DbState) (gid v : Nat) (users : List String) (s' : postgres.DbState),
      postgres.WFGroupIds s → postgres.applyGroupUsersMerge s gid v users = (s', none) →
      postgres.groupVersion s gid = some v ∧
      postgres.groupVersion s' gid = some (v + 1)) ∧
    (∀ (s : postgres.DbState) (gid v : Nat) (pids : List Nat) (s' : postgres.DbState),
      postgres.WFGroupIds s →
      postgres.applyGroupPermissionsMerge s gid v pids = (s', none) →
      postgres.groupVersion s gid = some v ∧
      postgres.groupVersion s' gid = some (v + 1)) ∧
    (∀ (s : postgres.DbState) (gid v : Nat) (nm : String) (s' : postgres.DbState),
      postgres.WFGroupIds s → postgres.applyChangeGroupName s gid v nm = (s', none) →
      postgres.groupVersion s gid = some v ∧
      postgres.groupVersion s' gid = some (v + 1)) ∧
    (∀ (s : postgres.DbState) (gid v : Nat), postgres.WFGroupIds s →
      postgres.groupVersion s gid ≠ some v →
      (∀ users, (postgres.applyGroupUsersMerge s gid v users).1 = s) ∧
      (∀ pids, (postgres.applyGroupPermissionsMerge s gid v pids).1 = s)) ∧
    (∀ s s', postgres.WFDb s → postgres.StoreStep s s' → postgres.WFDb s') ∧
    (∀ s s', postgres.WFDb s → postgres.StoreStep s s' → ∀ gid,
      postgres.groupVersion s' gid = postgres.groupVersion s gid ∨
      (∃ v, postgres.groupVersion s gid = some v ∧
        postgres.groupVersion s' gid = some (v + 1)) ∨
      (postgres.groupVersion s gid = none ∧ postgres.groupVersion s' gid = some 1) ∨
      postgres.groupVersion s' gid = none) := by
  have hbump : ∀ g : postgres.GroupRow,
      ({ g with version := g.version + 1 } : postgres.GroupRow).id = g.id := fun _ => rfl
  have hbumpv : ∀ g : postgres.GroupRow,
      ({ g with version := g.version + 1 } : postgres.GroupRow).version = g.version + 1 :=
    fun _ => rfl
  have husers : ∀ (s : postgres.DbState) (gid v : Nat) (users : List String)
      (s' : postgres.DbState),
      postgres.applyGroupUsersMerge s gid v users = (s', none) →
      s.groups.any (fun g => g.id == gid && g.version == v) = true ∧
      s'.groups = s.groups.map (fun g =>
        if g.id == gid && g.version == v then { g with version := g.version + 1 } else g) := by
    intro s gid v users s' heq
    simp only [postgres.applyGroupUsersMerge] at heq
    split at heq
    · rename_i s'' hb
      rw [Prod.mk.injEq] at heq
      obtain ⟨h1, _⟩ := heq
      subst h1
      exact ⟨(bumpVersion_eq_some _ _ _ _ hb).1, (bumpVersion_eq_some _ _ _ _ hb).2.1⟩
    · rw [Prod.mk.injEq] at heq
      cases heq.2
  have hperms : ∀ (s : postgres.DbState) (gid v : Nat) (pids : List Nat)
      (s' : postgres.DbState),
      postgres.applyGroupPermissionsMerge s gid v pids = (s', none) →
      s.groups.any (fun g => g.id == gid && g.version == v) = true ∧
      s'.groups = s.groups.map (fun g =>
        if g.id == gid && g.version == v then { g with version := g.version + 1 } else g) := by
    intro s gid v pids s' heq
    simp only [postgres.applyGroupPermissionsMerge] at heq
    split at heq
    · rename_i s'' hb
      rw [Prod.mk.injEq] at heq
      obtain ⟨h1, _⟩ := heq
      subst h1
      exact ⟨(bumpVersion_eq_some _ _ _ _ hb).1, (bumpVersion_eq_some _ _ _ _ hb).2.1⟩
    · rw [Prod.mk.injEq] at heq
      cases heq.2
  have hrename : ∀ (s : postgres.DbState) (gid v : Nat) (nm : String)
      (s' : postgres.DbState),
      postgres.applyChangeGroupName s gid v nm = (s', none) →
      s.groups.any (fun g => g.id == gid && g.version == v) = true ∧
      s'.groups = s.groups.map (fun g =>
        if g.id == gid && g.version == v then { g with name := nm, version := g.version + 1 } else g) := by
    intro s gid v nm s' heq
    unfold postgres.applyChangeGroupName at heq
    split at heq
    · rename_i hcond
      rw [Prod.mk.injEq] at heq
      obtain ⟨h1, _⟩ := heq
      subst h1
      exact ⟨hcond, rfl⟩
    · rw [Prod.mk.injEq] at heq
      cases heq.2
  refine ⟨?_, ?_, ?_, ?_, ?_, ?_, ?_⟩
  · -- creation: version 1 under the returned id
    intro s name s' id hwf heq
    unfold postgres.CreateGroupState at heq
    split at heq
    · rw [Prod.mk.injEq] at heq
      cases heq.2
    · rw [Prod.mk.injEq] at heq
      obtain ⟨h1, h2⟩ := heq
      injection h2 with h2
      subst h1
      subst h2
      unfold postgres.groupVersion
      simp only
      rw [findVersion_append ⟨s.nextGroupId, name, 1⟩ s.nextGroupId s.groups]
      have hnone : s.groups.find? (fun g => g.id == s.nextGroupId) = none := by
        rw [List.find?_eq_none]
        intro g hg
        simp only [beq_iff_eq]
        exact Nat.ne_of_lt (hwf.2 g hg)
      rw [hnone]
      simp
  · -- user merge success
    intro s gid v users s' hwf heq
    obtain ⟨hany, hg⟩ := husers s gid v users s' heq
    exact merge_success_version s s' gid v _ hbump hbumpv hwf hany hg
  · -- permission merge success
    intro s gid v pids s' hwf heq
    obtain ⟨hany, hg⟩ := hperms s gid v pids s' heq
    exact merge_success_version s s' gid v _ hbump hbumpv hwf hany hg
  · -- rename success
    intro s gid v nm s' hwf heq
    obtain ⟨hany, hg⟩ := hrename s gid v nm s' heq
    exact merge_success_version s s' gid v (fun g => { g with name := nm, version := g.version + 1 }) (fun _ => rfl) (fun _ => rfl) hwf hany hg
  · -- stale version rejected, nothing merged
    intro s gid v hwf hne
    have hany := groups_any_version_eq_false s gid v hwf hne
    constructor
    · intro users
      simp only [postgres.applyGroupUsersMerge, postgres.bumpVersion]
      rw [if_neg (by simp only [hany]; exact fun hx => nomatch hx)]
    · intro pids
      simp only [postgres.applyGroupPermissionsMerge, postgres.bumpVersion]
      rw [if_neg (by simp only [hany]; exact fun hx => nomatch hx)]
  · -- well-formedness preserved by every step
    intro s s' hwf hstep
    cases hstep with
    | createGroup name =>
      unfold postgres.CreateGroupState
      split
      · exact hwf
      · exact WFDb_append_fresh s name hwf
    | createPermission name =>
      unfold postgres.CreatePermissionState
      split
      · exact hwf
      · exact WFDb_of_parts_eq s _ rfl rfl hwf
    | groupUsersMerge gid v users =>
      simp only [postgres.applyGroupUsersMerge]
      split
      · rename_i s'' hb
        obtain ⟨_, hg, hn⟩ := bumpVersion_eq_some _ _ _ _ hb
        exact WFDb_map_cond s s'' gid v _ hbump hg hn hwf
      · exact hwf
    | groupPermissionsMerge gid v pids =>
      simp only [postgres.applyGroupPermissionsMerge]
      split
      · rename_i s'' hb
        obtain ⟨_, hg, hn⟩ := bumpVersion_eq_some _ _ _ _ hb
        exact WFDb_map_cond s s'' gid v _ hbump hg hn hwf
      · exact hwf
    | changeGroupName gid v nm =>
      unfold postgres.applyChangeGroupName
      split
      · exact WFDb_map_cond s _ gid v (fun g => { g with name := nm, version := g.version + 1 }) (fun _ => rfl) rfl rfl hwf
      · exact hwf
    | deleteGroup gid v =>
      unfold postgres.applyDeleteGroup
      split
      · exact WFDb_filter s _ _ rfl rfl hwf
      · exact hwf
    | userGroupsMerge uid gids =>
      exact WFDb_of_parts_eq s _ rfl rfl hwf
    | deleteUser uid =>
      unfold postgres.DeleteUserState
      split
      · exact hwf
      · exact WFDb_of_parts_eq s _ rfl rfl hwf
  · -- version evolution along any step
    intro s s' hwf hstep gid
    cases hstep with
    | createGroup name =>
      unfold postgres.CreateGroupState
      split
      · left; rfl
      · unfold postgres.groupVersion
        simp only
        rw [findVersion_append ⟨s.nextGroupId, name, 1⟩ gid s.groups]
        cases hfv : (s.groups.find? (fun g => g.id == gid)).map (fun g => g.version) with
        | some w => left; rfl
        | none =>
          by_cases hid : s.nextGroupId = gid
          · right; right; left
            constructor
            · rfl
            · simp [hid]
          · left
            simp [hid, hfv]
    | createPermission name =>
      unfold postgres.CreatePermissionState
      split
      · left; rfl
      · left; rfl
    | groupUsersMerge gid0 v users =>
      simp only [postgres.applyGroupUsersMerge]
      split
      · rename_i s'' hb
        obtain ⟨_, hg, _⟩ := bumpVersion_eq_some _ _ _ _ hb
        rcases groupVersion_map_cond_cases s s'' gid0 v gid _ hbump hbumpv hg with h | h
        · left; exact h
        · right; left; exact h
      · left; rfl
    | groupPermissionsMerge gid0 v pids =>
      simp only [postgres.applyGroupPermissionsMerge]
      split
      · rename_i s'' hb
        obtain ⟨_, hg, _⟩ := bumpVersion_eq_some _ _ _ _ hb
        rcases groupVersion_map_cond_cases s s'' gid0 v gid _ hbump hbumpv hg with h | h
        · left; exact h
        · right; left; exact h
      · left; rfl
    | changeGroupName gid0 v nm =>
      unfold postgres.applyChangeGroupName
      split
      · rcases groupVersion_map_cond_cases s { s with groups := s.groups.map (fun g => if g.id == gid0 && g.version == v then { g with name := nm, version := g.version + 1 } else g) } gid0 v gid (fun g => { g with name := nm, version := g.version + 1 }) (fun _ => rfl) (fun _ => rfl) rfl with h | h
        · left; exact h
        · right; left; exact h
      · left; rfl
    | deleteGroup gid0 v =>
      unfold postgres.applyDeleteGroup
      split
      · rename_i hany
        by_cases hgid : gid = gid0
        · subst hgid
          right; right; right
          rw [List.any_eq_true] at hany
          obtain ⟨r0, hr0, hr0p⟩ := hany
          rw [Bool.and_eq_true, beq_iff_eq, beq_iff_eq] at hr0p
          unfold postgres.groupVersion
          simp only
          rw [find_filter_none _ gid s.groups ?hall]
          case hall =>
            intro g hg hgidg
            have : g = r0 := List.inj_on_of_nodup_map hwf.1 hg hr0 (by rw [hgidg, hr0p.1])
            subst this
            simp [hgidg, hr0p.2]
          rfl
        · left
          unfold postgres.groupVersion
          simp only
          rw [find_filter_keep _ gid s.groups ?hkeep]
          case hkeep =>
            intro g hg hgidg
            have : (g.id == gid0) = false := by
              simp only [beq_eq_false_iff_ne, ne_eq]
              rw [hgidg]
              exact hgid
            simp [this]
      · left; rfl
    | userGroupsMerge uid gids =>
      left; rfl
    | deleteUser uid =>
      unfold postgres.DeleteUserState
      split
      · left; rfl
      · left; rfl

/-- Claim C7, witness: on a one-group store (id 1, version 1), the user-merge
step run with the current version 1 reports the old version 1 and the new
version 2. -/
theorem C7_version_lifecycle_witness :
    postgres.groupVersion ⟨[⟨1, "g", 1⟩], [], [], [], 2, 1⟩ 1 = some 1 ∧
    postgres.groupVersion
        (postgres.applyGroupUsersMerge ⟨[⟨1, "g", 1⟩], [], [], [], 2, 1⟩ 1 1 ["u"]).1 1
      = some 2 := by
  have h := C7_version_lifecycle.2.1 ⟨[⟨1, "g", 1⟩], [], [], [], 2, 1⟩ 1 1 ["u"]
    (postgres.applyGroupUsersMerge ⟨[⟨1, "g", 1⟩], [], [], [], 2, 1⟩ 1 1 ["u"]).1
    (by simp [postgres.WFGroupIds]) (by rfl)
  exact ⟨h.1, h.2⟩
